import Mathlib

/-!
Verification of the row-materialization layer: the tagged-tuple row projector
(`KVToSqlRowConverter.ConvertKVToSqlRow` / `processTuple` in
`go/libraries/doltcore/sqle/dolt_map_iter.go`) and the adaptive width-sizing
pipeline stage (`AutoSizingFWTTransformer`).

Embedding notes:
- Machine integers (`uint64` tags, Go `int` sample counts) are modelled as
  `Nat` / `Int`; the key-scan sentinel `0xFFFFFFFFFFFFFFFF` is the concrete
  `Nat` `2^64 - 1`.
- A noms tuple is, on the wire, a flat sequence of values that the decoding
  loop consumes as alternating (tag, value); the model keeps the flat list so
  the pairing logic stays in the embedded code, as in the source.
- The pooled tuple cursor (`types.TupleIterator`, external to the sources) is
  modelled from the spec as a position in the flat list: `Next` yields the next
  element or end-of-tuple, `Skip` advances past one element.
- Go's `(value, error)` returns, where every error return carries a nil value,
  are modelled as `Except String`; Go panics (failing type assertions, index
  out of range) are modelled as distinguished `Except.error "panic: ..."`
  results for the projector, and as `Option.none` for the sampling stage.
- Go maps used only through lookup (`tagToSqlColIdx`) are modelled as
  functions into `Option`, which is exactly their lookup semantics and makes
  the result independent of any iteration order by construction.
-/

/-- Scalar values stored inside a serialized tuple (noms values at tuple
positions): unsigned-integer tags, strings, nulls. -/
inductive NomsVal where
  | uint (n : Nat)
  | str (s : String)
  | null
  | boolv (b : Bool)
  deriving DecidableEq, Repr

/-- Top-level storage values handed to `ConvertKVToSqlRow`: a tuple (flat
alternating tag/value sequence), the null/absent sentinel, or some other
non-tuple value. -/
inductive NomsValue where
  | tuple (elems : List NomsVal)
  | null
  | scalar (v : NomsVal)
  deriving DecidableEq, Repr

/-- Model of `types.IsNull`: true for the storage layer's absent sentinel. -/
def isNull : NomsValue → Bool
  | NomsValue.null => true
  | _ => false

/-- Typed SQL values produced by per-column converters
(`TypeInfo.ConvertNomsValueToValue`). -/
inductive SqlValue where
  | sInt (n : Int)
  | sStr (s : String)
  | sBool (b : Bool)
  deriving DecidableEq, Repr

/-- Model of `schema.Column` restricted to what the projector reads: the
column tag, whether it is part of the primary key, and its type-conversion
capability (external collaborator, carried as a function). -/
structure Column where
  tag : Nat
  isPartOfPK : Bool
  convert : NomsVal → Except String SqlValue

/-- Model of `KVToSqlRowConverter`. -/
structure KVToSqlRowConverter where
  tagToSqlColIdx : Nat → Option Nat
  cols : List Column
  rowSize : Nat
  valsFromKey : Nat
  valsFromVal : Nat
  maxValTag : Nat

/-- Model of `maxU64`. -/
def maxU64 (x y : Nat) : Nat :=
  if x > y then x else y

/-- Model of `getValLocations`: counts of requested columns sourced from the
key tuple and from the value tuple, and the maximum requested value tag. -/
def getValLocations (tagToSqlColIdx : Nat → Option Nat) (cols : List Column) :
    Nat × Nat × Nat :=
  cols.foldl
    (fun acc col =>
      match tagToSqlColIdx col.tag with
      | some _ =>
        if col.isPartOfPK then (acc.1 + 1, acc.2.1, acc.2.2)
        else (acc.1, acc.2.1 + 1, maxU64 acc.2.2 col.tag)
      | none => acc)
    (0, 0, 0)

/-- Model of `NewKVToSqlRowConverter`. -/
def newKVToSqlRowConverter (tagToSqlColIdx : Nat → Option Nat)
    (cols : List Column) (rowSize : Nat) : KVToSqlRowConverter :=
  let locs := getValLocations tagToSqlColIdx cols
  { tagToSqlColIdx := tagToSqlColIdx
    cols := cols
    rowSize := rowSize
    valsFromKey := locs.1
    valsFromVal := locs.2.1
    maxValTag := locs.2.2 }

/-- The `uint64` sentinel `0xFFFFFFFFFFFFFFFF` used as the key scan's max tag
bound (keys are not sorted, so no max-tag early exit is intended). -/
def uint64Sentinel : Nat := 0xFFFFFFFFFFFFFFFF

/-- Model of the loop body of `processTuple`. State: `slots` is the output row
being filled, `filled` counts conversions done, `tag64` is the last tag read
(Go: `var tag64 uint64`, initially 0), `rest` is the unread remainder of the
flat tuple, `visited` counts the tuple entries whose value has been consumed
(read-and-converted or skipped). Reading a tag only to discover it exceeds
`maxTag` — which is how the loop evaluates its exit condition — does not count
that entry as visited. -/
def processTupleLoop (conv : KVToSqlRowConverter) (valsToFill maxTag : Nat)
    (slots : List (Option SqlValue)) (filled tag64 : Nat) :
    List NomsVal → Nat → Except String (List (Option SqlValue) × Nat)
  | rest, visited =>
    if filled < valsToFill ∧ tag64 < maxTag then
      match rest with
      | [] => Except.ok (slots, visited)
      | NomsVal.uint t :: rest1 =>
        if maxTag < t then Except.ok (slots, visited)
        else
          match conv.tagToSqlColIdx t, rest1 with
          | _, [] => Except.error "panic: tuple iterator exhausted mid-entry"
          | none, _ :: rest2 =>
            processTupleLoop conv valsToFill maxTag slots filled t rest2
              (visited + 1)
          | some idx, v :: rest2 =>
            match (conv.cols).get? idx with
            | none => Except.error "panic: column index out of range"
            | some col =>
              match col.convert v with
              | Except.error e => Except.error e
              | Except.ok sv =>
                if idx < slots.length then
                  processTupleLoop conv valsToFill maxTag
                    (slots.set idx (some sv)) (filled + 1) t rest2 (visited + 1)
                else Except.error "panic: row index out of range"
      | _ :: _ => Except.error "panic: tag is not a types.Uint"
    else Except.ok (slots, visited)

/-- Model of `processTuple`: scan a tuple filling `slots`, also reporting the
number of entries visited (for stating scan-extent properties). -/
def processTuple (conv : KVToSqlRowConverter) (valsToFill maxTag : Nat)
    (slots : List (Option SqlValue)) (tup : List NomsVal) :
    Except String (List (Option SqlValue) × Nat) :=
  processTupleLoop conv valsToFill maxTag slots 0 0 tup 0

/-- Model of `ConvertKVToSqlRow`. The value may be the absent sentinel; the
zero-value `types.Tuple` then scanned is modelled from the spec as the empty
tuple ("treated as containing no value-column contributions, not as an
error"). On every error return the Go code returns a nil row; `Except.error`
carries no row, matching that exactly. -/
def convertKVToSqlRow (conv : KVToSqlRowConverter) (k v : NomsValue) :
    Except String (List (Option SqlValue)) :=
  match k with
  | NomsValue.tuple keyElems =>
    match (if isNull v then Except.ok ([] : List NomsVal)
           else match v with
                | NomsValue.tuple ve => Except.ok ve
                | _ => Except.error "invalid value is not a tuple") with
    | Except.error e => Except.error e
    | Except.ok valElems =>
      let slots : List (Option SqlValue) := List.replicate conv.rowSize none
      match (if 0 < conv.valsFromKey then
               (processTuple conv conv.valsFromKey uint64Sentinel slots
                 keyElems).map Prod.fst
             else Except.ok slots) with
      | Except.error e => Except.error e
      | Except.ok slots1 =>
        if 0 < conv.valsFromVal then
          (processTuple conv conv.valsFromVal conv.maxValTag slots1
            valElems).map Prod.fst
        else Except.ok slots1
  | _ => Except.error "invalid key is not a tuple"

/-- Flatten a list of (tag, value) entries into the wire-format flat sequence
the tuple cursor yields. -/
def flatPairs : List (Nat × NomsVal) → List NomsVal
  | [] => []
  | (t, v) :: rest => NomsVal.uint t :: v :: flatPairs rest

/-- An entry is requested when its tag is in the requested-tag mapping. -/
def mappedP (conv : KVToSqlRowConverter) (p : Nat × NomsVal) : Bool :=
  (conv.tagToSqlColIdx p.1).isSome

/-- Number of requested entries in a list of tuple entries. -/
def mappedCount (conv : KVToSqlRowConverter) (ps : List (Nat × NomsVal)) :
    Nat :=
  ps.countP (mappedP conv)

/-- Modelled from the spec (`Testable property: ... the same result as a full
scan`): the reference full scan of a tuple, visiting every entry, converting
every requested one and skipping the rest, with no early exit. Used only to
compare the optimized value scan against the spec's words. -/
def fullScanSpec (conv : KVToSqlRowConverter)
    (slots : List (Option SqlValue)) :
    List NomsVal → Except String (List (Option SqlValue))
  | [] => Except.ok slots
  | NomsVal.uint t :: v :: rest =>
    match conv.tagToSqlColIdx t with
    | none => fullScanSpec conv slots rest
    | some idx =>
      match (conv.cols).get? idx with
      | none => Except.error "panic: column index out of range"
      | some col =>
        match col.convert v with
        | Except.error e => Except.error e
        | Except.ok sv =>
          if idx < slots.length then
            fullScanSpec conv (slots.set idx (some sv)) rest
          else Except.error "panic: row index out of range"
  | _ => Except.error "panic: malformed tuple"

/-!
Model of the adaptive width-sizing pipeline stage (`AutoSizingFWTTransformer`
in the `fwt` package part of the sources).

External collaborators, modelled from the spec:
- `pipeline.RowWithProps`: a row (iterated by `IterSchema` as (tag, value)
  pairs) plus an immutable property bag; `Props.Set` merges updates, update
  keys taking precedence.
- `StringWidth` and `len([]rune ...)`: display width and rune count of a
  string, carried as abstract functions in `FwtEnv`.
- `NewFWTSchemaWithWidths` + `NewFWTTransformer` + `FWTTransformer.Transform`:
  the fixed-width formatter built from the learned width maps, carried as an
  abstract constructor `mkFmt` in `FwtEnv`; `Transform` returns a list of
  transformed results and an error message (empty string = no error).
- Channels: the output and error queues are modelled as the lists of items a
  call appends to them; the level-triggered stop channel is modelled as the
  step index from which it is observed raised.
- Go map reads with default zero (`printWidths[tag]`) are modelled as
  functions `Nat → Nat` defaulting to 0.
- The `strVal := val.(types.String)` type assertion panics on a non-null,
  non-string value; sampling-phase panics are modelled as `Option.none`.
-/

/-- Values inside a row as the sampling pass sees them: null, a string, or a
non-null non-string value (which the sampling type assertion rejects). -/
inductive FwtVal where
  | null
  | str (s : String)
  | nonString
  deriving DecidableEq, Repr

/-- Modelled from the spec: an immutable property bag. -/
abbrev Props : Type := List (String × String)

/-- Modelled from the spec: `pipeline.RowWithProps`; `row` is the (tag, value)
sequence `IterSchema` yields for the stage's schema. -/
structure RowWithProps where
  row : List (Nat × FwtVal)
  props : Props
  deriving DecidableEq, Repr

/-- Model of `pipeline.TransformRowFailure` (row, stage name, details). -/
structure TransformRowFailure where
  row : List (Nat × FwtVal)
  transformName : String
  details : String
  deriving DecidableEq, Repr

/-- Modelled from the spec: one result of `FWTTransformer.Transform`. -/
structure TransformedRowResult where
  rowData : List (Nat × FwtVal)
  propertyUpdates : Props
  deriving DecidableEq, Repr

/-- Modelled from the spec: the fixed-width formatter capability
(`FWTTransformer.Transform`): row and props in, transformed results and an
error message out (empty message = success). -/
def Formatter : Type :=
  List (Nat × FwtVal) → Props → List TransformedRowResult × String

/-- Modelled from the spec: `Props.Set` merges property updates into the bag,
updates taking precedence. -/
def propsSet (props updates : Props) : Props := updates ++ props

/-- External capabilities the stage is built over: display width, rune count,
and the formatter constructor (`NewFWTSchemaWithWidths`+`NewFWTTransformer`)
taking the learned print-width and max-rune maps. -/
structure FwtEnv where
  stringWidth : String → Nat
  runeCount : String → Nat
  mkFmt : (Nat → Nat) → (Nat → Nat) → Formatter

/-- Model of `AutoSizingFWTTransformer`: `rowBuffer = none` models the Go nil
buffer (Materialized state), `fwtTr = none` the not-yet-built formatter. -/
structure AutoSizingFWTTransformer where
  numSamples : Int
  printWidths : Nat → Nat
  maxRunes : Nat → Nat
  rowBuffer : Option (List RowWithProps)
  fwtTr : Option Formatter

/-- Model of `NewAutoSizingFWTTransformer`. -/
def newAutoSizingFWTTransformer (numSamples : Int) :
    AutoSizingFWTTransformer :=
  { numSamples := numSamples
    printWidths := fun _ => 0
    maxRunes := fun _ => 0
    rowBuffer := some []
    fwtTr := none }

/-- Model of `processRow`: run the formatter; a non-empty error message sends
a `TransformRowFailure` to the error queue; exactly one result forwards the
augmented row to the output queue; any other result count emits nothing.
Returns (rows appended to the output queue, failures appended to the error
queue). -/
def processRow (fmt : Formatter) (r : RowWithProps) :
    List RowWithProps × List TransformRowFailure :=
  let res := fmt r.row r.props
  if res.2 ≠ "" then
    ([], [{ row := r.row, transformName := "Auto Sizing Fixed Width Transform",
            details := res.2 }])
  else
    match res.1 with
    | [rd] =>
      let outProps :=
        if 0 < rd.propertyUpdates.length then propsSet r.props rd.propertyUpdates
        else r.props
      ([{ row := rd.rowData, props := outProps }], [])
    | _ => ([], [])

/-- Model of the width-learning pass of `handleRow` over one row's (tag,
value) pairs: skip nulls, take max display width and max rune count per tag,
panic (`none`) on a non-string non-null value. -/
def sampleRow (env : FwtEnv) (pw mr : Nat → Nat) :
    List (Nat × FwtVal) → Option ((Nat → Nat) × (Nat → Nat))
  | [] => some (pw, mr)
  | (_, FwtVal.null) :: rest => sampleRow env pw mr rest
  | (tag, FwtVal.str s) :: rest =>
    sampleRow env
      (fun t => if t = tag then
         (if env.stringWidth s > pw tag then env.stringWidth s else pw tag)
       else pw t)
      (fun t => if t = tag then
         (if env.runeCount s > mr tag then env.runeCount s else mr tag)
       else mr t)
      rest
  | (_, FwtVal.nonString) :: _ => none

/-- Model of the replay loop inside `flush`: process buffered rows in order;
after processing the row at index `i`, if `i % 100 == 0` and the stop signal
is observed (`stop i`), return early. Returns (output-queue items, error-queue
items, number of rows processed, whether the loop returned early on stop). -/
def flushLoop (fmt : Formatter) :
    List RowWithProps → Nat → (Nat → Bool) →
    List RowWithProps × List TransformRowFailure × Nat × Bool
  | [], _, _ => ([], [], 0, false)
  | r :: rest, i, stop =>
    let pr := processRow fmt r
    if i % 100 = 0 ∧ stop i then (pr.1, pr.2, 1, true)
    else
      let t := flushLoop fmt rest (i + 1) stop
      (pr.1 ++ t.1, pr.2 ++ t.2.1, t.2.2.1 + 1, t.2.2.2)

/-- Model of `flush`: build the formatter from the learned maps if not built
yet, replay the buffer through it with coarse stop checks, and clear the
buffer — except on an early stop return, which leaves the buffer in place
(the Go early `return` skips `rowBuffer = nil`). -/
def flush (env : FwtEnv) (st : AutoSizingFWTTransformer) (stop : Nat → Bool) :
    AutoSizingFWTTransformer × List RowWithProps ×
      List TransformRowFailure × Bool :=
  let fmt := match st.fwtTr with
    | none => env.mkFmt st.printWidths st.maxRunes
    | some f => f
  let res := flushLoop fmt (st.rowBuffer.getD []) 0 stop
  if res.2.2.2 then
    ({ st with fwtTr := some fmt }, res.1, res.2.1, true)
  else
    ({ st with fwtTr := some fmt, rowBuffer := none }, res.1, res.2.1, false)

/-- Model of `handleRow`. Materialized (`rowBuffer` nil): pass the row through
the formatter (a nil formatter dereference would be a Go panic, modelled
`none`; unreachable since `flush` always sets the formatter before clearing
the buffer). Sampling with the threshold not reached: learn widths (panicking
on non-string values) and buffer the row. Threshold reached: flush the buffer
— the arriving row itself is neither processed nor buffered. -/
def handleRow (env : FwtEnv) (st : AutoSizingFWTTransformer)
    (r : RowWithProps) (stop : Nat → Bool) :
    Option (AutoSizingFWTTransformer × List RowWithProps ×
      List TransformRowFailure) :=
  match st.rowBuffer with
  | none =>
    match st.fwtTr with
    | none => none
    | some fmt =>
      let pr := processRow fmt r
      some (st, pr.1, pr.2)
  | some buf =>
    if st.numSamples ≤ 0 ∨ (buf.length : Int) < st.numSamples then
      match sampleRow env st.printWidths st.maxRunes r.row with
      | none => none
      | some pm =>
        some ({ st with
                  printWidths := pm.1
                  maxRunes := pm.2
                  rowBuffer := some (buf ++ [r]) }, [], [])
    else
      let fl := flush env st stop
      some (fl.1, fl.2.1, fl.2.2.1)

/-- Model of `TransformToFWT`: consume the input queue item by item. The
level-triggered cancellation signal is modelled as raised at every loop
boundary from input index `n` on (`stopAt = some n`); when observed the stage
returns at once (no flush, nothing further emitted). On input exhaustion
without cancellation, the final flush runs. Within-call stop signals are not
raised at non-boundary times in this model (the every-100-rows replay
granularity is stated separately about `flushLoop`). Returns the final state,
the output-queue items, the error-queue items, and whether the stage returned
through the cancellation path; `none` models a Go panic. -/
def transformToFWT (env : FwtEnv) (st : AutoSizingFWTTransformer)
    (inputs : List RowWithProps) (idx : Nat) (stopAt : Option Nat) :
    Option (AutoSizingFWTTransformer × List RowWithProps ×
      List TransformRowFailure × Bool) :=
  if (match stopAt with | some n => decide (n ≤ idx) | none => false) then
    some (st, [], [], true)
  else
    match inputs with
    | [] =>
      let fl := flush env st (fun _ => false)
      some (fl.1, fl.2.1, fl.2.2.1, fl.2.2.2)
    | r :: rest =>
      match handleRow env st r (fun _ => false) with
      | none => none
      | some h =>
        match transformToFWT env h.1 rest (idx + 1) stopAt with
        | none => none
        | some t => some (t.1, h.2.1 ++ t.2.1, h.2.2 ++ t.2.2.1, t.2.2.2)

/-- Items the pure processing of a list of input rows appends to the queues
(each item handled with the stop signal unraised): used to state that a
cancelled run emits exactly what the un-drained prefix emits. -/
def runItems (env : FwtEnv) (st : AutoSizingFWTTransformer) :
    List RowWithProps →
    Option (AutoSizingFWTTransformer × List RowWithProps ×
      List TransformRowFailure)
  | [] => some (st, [], [])
  | r :: rest =>
    match handleRow env st r (fun _ => false) with
    | none => none
    | some h =>
      match runItems env h.1 rest with
      | none => none
      | some t => some (t.1, h.2.1 ++ t.2.1, h.2.2 ++ t.2.2)

/-!
Spec-side characterizations and concrete instances used by the theorems.
-/

/-- Display widths that the sampling pass observes for tag `t` in a list of
(tag, value) pairs: the widths of the non-null string values stored under
`t`. -/
def pairWidthObs (env : FwtEnv) (t : Nat) (pairs : List (Nat × FwtVal)) :
    List Nat :=
  pairs.filterMap (fun p =>
    if p.1 = t then
      match p.2 with
      | FwtVal.str s => some (env.stringWidth s)
      | _ => none
    else none)

/-- Rune counts the sampling pass observes for tag `t` in a list of (tag,
value) pairs. -/
def pairRuneObs (env : FwtEnv) (t : Nat) (pairs : List (Nat × FwtVal)) :
    List Nat :=
  pairs.filterMap (fun p =>
    if p.1 = t then
      match p.2 with
      | FwtVal.str s => some (env.runeCount s)
      | _ => none
    else none)

/-- Display widths observed for tag `t` in one row. -/
def rowWidthObs (env : FwtEnv) (t : Nat) (r : RowWithProps) : List Nat :=
  pairWidthObs env t r.row

/-- Rune counts observed for tag `t` in one row. -/
def rowRuneObs (env : FwtEnv) (t : Nat) (r : RowWithProps) : List Nat :=
  pairRuneObs env t r.row

/-- All display widths observed for tag `t` across a list of rows, in order. -/
def observedWidths (env : FwtEnv) (t : Nat) (rows : List RowWithProps) :
    List Nat :=
  (rows.map (rowWidthObs env t)).flatten

/-- All rune counts observed for tag `t` across a list of rows, in order. -/
def observedRunes (env : FwtEnv) (t : Nat) (rows : List RowWithProps) :
    List Nat :=
  (rows.map (rowRuneObs env t)).flatten

/-- The per-tag print width the sampling phase learns from a list of rows:
the maximum observed display width (0 when nothing was observed, matching the
Go map's zero default). -/
def learnedPrintWidths (env : FwtEnv) (rows : List RowWithProps) :
    Nat → Nat :=
  fun t => (observedWidths env t rows).foldl max 0

/-- The per-tag max rune count the sampling phase learns from a list of
rows. -/
def learnedMaxRunes (env : FwtEnv) (rows : List RowWithProps) : Nat → Nat :=
  fun t => (observedRunes env t rows).foldl max 0

/-- The formatter the stage builds when it materializes after sampling
exactly `rows`: the external constructor applied to the learned statistics. -/
def autoSizedFormatter (env : FwtEnv) (rows : List RowWithProps) : Formatter :=
  env.mkFmt (learnedPrintWidths env rows) (learnedMaxRunes env rows)

/-- A string-identity converter used by the concrete instances. -/
def okStrConv : NomsVal → Except String SqlValue
  | NomsVal.str s => Except.ok (SqlValue.sStr s)
  | _ => Except.error "conversion failed"

/-- Concrete instance for C1: a single requested non-key column with tag 0. -/
def c1col : Column := { tag := 0, isPartOfPK := false, convert := okStrConv }

/-- Concrete converter for C1 (`NewKVToSqlRowConverterForCols` over
`[c1col]`). -/
def c1conv : KVToSqlRowConverter :=
  newKVToSqlRowConverter (fun t => if t = 0 then some 0 else none) [c1col] 1

/-- Concrete instance for C2: two key columns, only the first requested. -/
def c2conv : KVToSqlRowConverter :=
  newKVToSqlRowConverter (fun t => if t = 0 then some 0 else none)
    [{ tag := 0, isPartOfPK := true, convert := okStrConv },
     { tag := 1, isPartOfPK := true, convert := okStrConv }] 2

/-- Concrete instance for C2's amended-claim witness: two key columns with
the requested one stored last. -/
def c2lastConv : KVToSqlRowConverter :=
  newKVToSqlRowConverter (fun t => if t = 1 then some 0 else none)
    [{ tag := 0, isPartOfPK := true, convert := okStrConv },
     { tag := 1, isPartOfPK := true, convert := okStrConv }] 1

/-- Concrete instance for C3: a single requested value column with tag 0
(the max requested value tag is therefore 0). -/
def c3conv : KVToSqlRowConverter :=
  newKVToSqlRowConverter (fun t => if t = 0 then some 0 else none)
    [{ tag := 0, isPartOfPK := false, convert := okStrConv }] 1

/-- Concrete instance for C3's amended-claim witness: value columns with tags
1 and 3 requested, over a value tuple with tags 1, 3, 5, 9 (the spec's own
early-exit example). -/
def c3exConv : KVToSqlRowConverter :=
  newKVToSqlRowConverter
    (fun t => if t = 1 then some 0 else if t = 3 then some 1 else none)
    [{ tag := 1, isPartOfPK := false, convert := okStrConv },
     { tag := 3, isPartOfPK := false, convert := okStrConv }] 2

/-- Concrete instance for C5's witness: one requested key column whose
converter always fails. -/
def c5conv : KVToSqlRowConverter :=
  newKVToSqlRowConverter (fun t => if t = 0 then some 0 else none)
    [{ tag := 0, isPartOfPK := true,
       convert := fun _ => Except.error "conversion failed" }] 1

/-- Concrete instance for C6's witness: a requested key column (tag 0) and a
requested value column (tag 1). -/
def c6conv : KVToSqlRowConverter :=
  newKVToSqlRowConverter
    (fun t => if t = 0 then some 0 else if t = 1 then some 1 else none)
    [{ tag := 0, isPartOfPK := true, convert := okStrConv },
     { tag := 1, isPartOfPK := false, convert := okStrConv }] 2

/-- Concrete environment for the width-sizing stage: lengths as widths and an
echo formatter that returns its input row unchanged with no property
updates. -/
def fwtEchoEnv : FwtEnv :=
  { stringWidth := String.length
    runeCount := String.length
    mkFmt := fun _ _ => fun row _ =>
      ([{ rowData := row, propertyUpdates := [] }], "") }

/-- Concrete rows for the width-sizing stage instances. -/
def fwtRowA : RowWithProps := { row := [(1, FwtVal.str "aa")], props := [] }

/-- Second concrete row (the one dropped at the C4 transition). -/
def fwtRowB : RowWithProps := { row := [(1, FwtVal.str "bbbb")], props := [] }

/-- Third concrete row (arrives after the transition). -/
def fwtRowC : RowWithProps := { row := [(1, FwtVal.str "c")], props := [] }

/-!
Claim theorems.
-/

/-- C1 (code evaluation at the failing input). The claim requires every slot
mapped from a requested tag present in either tuple to hold the converted
value. Failing input: a single requested non-key column with tag 0 (so the
precomputed maximum requested value tag is 0) and a value tuple containing
exactly that tag with a convertible value. Because `processTuple`'s loop head
is `filled < valsToFill && tag64 < maxTag` with `tag64` starting at 0, the
value scan never runs and the mapped, present, convertible slot is returned
nil: the call yields `[none]` instead of the converted value. -/
theorem c1_tagZeroValueDropped :
    c1conv.valsFromVal = 1
    ∧ c1conv.maxValTag = 0
    ∧ c1conv.tagToSqlColIdx 0 = some 0
    ∧ c1col.convert (NomsVal.str "x") = Except.ok (SqlValue.sStr "x")
    ∧ convertKVToSqlRow c1conv (NomsValue.tuple [])
        (NomsValue.tuple (flatPairs [(0, NomsVal.str "x")]))
        = Except.ok [none] :=
  ⟨rfl, rfl, rfl, rfl, rfl⟩

/-- C2 (counterexample). The claim says the key-tuple scan visits every
entry of the key tuple under any condition, even when all requested key tags
are filled before the end. Concrete input: two key entries, only the first
requested; the scan stops after visiting 1 of the 2 entries (the loop exits
once `filled` reaches `valsFromKey`). -/
theorem c2_keyScanStopsEarly :
    0 < c2conv.valsFromKey
    ∧ processTuple c2conv c2conv.valsFromKey uint64Sentinel
        (List.replicate 2 none)
        (flatPairs [(0, NomsVal.str "a"), (1, NomsVal.str "b")])
        = Except.ok ([some (SqlValue.sStr "a"), none], 1)
    ∧ [(0, NomsVal.str "a"), (1, NomsVal.str "b")].length = 2
    ∧ (1 : Nat) ≠ 2 :=
  ⟨by decide, rfl, rfl, by decide⟩

/-- C3 (counterexample). The claim says the early-exit value scan always
produces the same row as a full scan. Concrete input: the only requested
value column has tag 0, so the precomputed max requested value tag is 0; on
the strictly ascending value tuple `[(0, "x")]` the optimized scan returns
the row unchanged (visiting nothing) while the full scan fills the slot. -/
theorem c3_tagZeroNotEquivalent :
    List.Chain' (fun p q : Nat × NomsVal => p.1 < q.1) [(0, NomsVal.str "x")]
    ∧ (processTuple c3conv c3conv.valsFromVal c3conv.maxValTag [none]
        (flatPairs [(0, NomsVal.str "x")])).map Prod.fst
        = Except.ok [none]
    ∧ fullScanSpec c3conv [none] (flatPairs [(0, NomsVal.str "x")])
        = Except.ok [some (SqlValue.sStr "x")]
    ∧ ((Except.ok [(none : Option SqlValue)] :
          Except String (List (Option SqlValue)))
        ≠ Except.ok [some (SqlValue.sStr "x")]) :=
  ⟨by simp, rfl, rfl, by simp⟩

/-- C4 (code evaluation at the failing input). With sample size 1 and inputs
A, B, C: A is buffered; B's arrival finds the threshold reached, so
`handleRow` takes the flush-only branch — the buffer (A) is replayed but B is
neither formatted nor buffered nor failed; C then passes through the
materialized formatter. The run emits exactly [A, C] with an empty error
queue: B has vanished, contradicting the claim that the transitioning row is
itself processed under the Materialized handling. -/
theorem c4_transitionRowDropped :
    (transformToFWT fwtEchoEnv (newAutoSizingFWTTransformer 1)
        [fwtRowA, fwtRowB, fwtRowC] 0 none).map
      (fun x => (x.2.1, x.2.2.1, x.2.2.2))
      = some ([fwtRowA, fwtRowC], [], false)
    ∧ fwtRowB ∉ [fwtRowA, fwtRowC] :=
  ⟨rfl, by decide⟩

/-- C9 (confirmed): when the formatter reports no error but returns a result
list whose length is not exactly one, `processRow` enqueues nothing on either
the output queue or the error queue — the row is silently dropped. -/
theorem c9_zeroOrManyResultsSilentlyDropped (fmt : Formatter)
    (r : RowWithProps) (herr : (fmt r.row r.props).2 = "")
    (hlen : (fmt r.row r.props).1.length ≠ 1) :
    processRow fmt r = ([], []) := by
  unfold processRow
  rw [if_neg (by simp [herr])]
  cases h : (fmt r.row r.props).1 with
  | nil => rfl
  | cons a t =>
    cases t with
    | nil => exact absurd (by simp [h]) hlen
    | cons b t2 => rfl

/-- Witness for C9: a formatter that succeeds with two results; the row is
dropped. -/
theorem c9_zeroOrManyResultsSilentlyDropped_witness :
    processRow
      (fun row _ => ([{ rowData := row, propertyUpdates := [] },
                      { rowData := row, propertyUpdates := [] }], ""))
      fwtRowA = ([], []) :=
  c9_zeroOrManyResultsSilentlyDropped _ fwtRowA rfl (by decide)

/-- Helper: the width-learning pass panics (returns `none`) whenever the row
contains a non-null, non-string value. -/
theorem sampleRow_nonString_panics (env : FwtEnv) :
    ∀ (row : List (Nat × FwtVal)) (pw mr : Nat → Nat) (t : Nat),
      (t, FwtVal.nonString) ∈ row → sampleRow env pw mr row = none := by
  intro row
  induction row with
  | nil => intro pw mr t h; cases h
  | cons p rest ih =>
    intro pw mr t h
    match p, h with
    | (tag, FwtVal.null), h =>
      have : (t, FwtVal.nonString) ∈ rest := by
        cases h with
        | tail _ h2 => exact h2
      simpa [sampleRow] using ih _ _ t this
    | (tag, FwtVal.str s), h =>
      have : (t, FwtVal.nonString) ∈ rest := by
        cases h with
        | tail _ h2 => exact h2
      simpa [sampleRow] using ih _ _ t this
    | (tag, FwtVal.nonString), h => simp [sampleRow]

/-- C10 (confirmed): while the stage is Sampling (buffer present, threshold
not yet reached), a row holding a non-null, non-string value makes
`handleRow` panic (modelled `none`): no error return, no TransformFailure,
nothing emitted. -/
theorem c10_samplingPanicsOnNonString (env : FwtEnv)
    (st : AutoSizingFWTTransformer) (buf : List RowWithProps)
    (r : RowWithProps) (stop : Nat → Bool) (t : Nat)
    (hbuf : st.rowBuffer = some buf)
    (hsz : st.numSamples ≤ 0 ∨ (buf.length : Int) < st.numSamples)
    (hmem : (t, FwtVal.nonString) ∈ r.row) :
    handleRow env st r stop = none := by
  unfold handleRow
  rw [hbuf]
  simp only [if_pos hsz]
  rw [sampleRow_nonString_panics env r.row st.printWidths st.maxRunes t hmem]

/-- Witness for C10: a concrete freshly-constructed transformer with sample
size 5 panics on a row containing a non-string value. -/
theorem c10_samplingPanicsOnNonString_witness :
    handleRow fwtEchoEnv (newAutoSizingFWTTransformer 5)
      { row := [(1, FwtVal.nonString)], props := [] } (fun _ => false)
      = none :=
  c10_samplingPanicsOnNonString fwtEchoEnv _ [] _ _ 1 rfl (by decide)
    (by decide)

/-- Helper: `Except.map` on a success. -/
theorem exceptMap_ok {ε α β : Type} (f : α → β) (a : α) :
    (Except.ok a : Except ε α).map f = Except.ok (f a) := rfl

/-- Helper: `Except.map` on an error. -/
theorem exceptMap_error {ε α β : Type} (f : α → β) (e : ε) :
    (Except.error e : Except ε α).map f = Except.error e := rfl


/-- Helper: `ConvertKVToSqlRow` on a tuple key and the absent value, reduced
past the type checks. -/
theorem convertKVToSqlRow_nullValue (conv : KVToSqlRowConverter)
    (kes : List NomsVal) :
    convertKVToSqlRow conv (NomsValue.tuple kes) NomsValue.null
      = match (if 0 < conv.valsFromKey then
                 (processTuple conv conv.valsFromKey uint64Sentinel
                   (List.replicate conv.rowSize none) kes).map Prod.fst
               else Except.ok (List.replicate conv.rowSize none)) with
        | Except.error e => Except.error e
        | Except.ok slots1 =>
          if 0 < conv.valsFromVal then
            (processTuple conv conv.valsFromVal conv.maxValTag slots1
              []).map Prod.fst
          else Except.ok slots1 := rfl

/-- Helper: `ConvertKVToSqlRow` on tuple key and tuple value, reduced past
the type checks. -/
theorem convertKVToSqlRow_tupleValue (conv : KVToSqlRowConverter)
    (kes ves : List NomsVal) :
    convertKVToSqlRow conv (NomsValue.tuple kes) (NomsValue.tuple ves)
      = match (if 0 < conv.valsFromKey then
                 (processTuple conv conv.valsFromKey uint64Sentinel
                   (List.replicate conv.rowSize none) kes).map Prod.fst
               else Except.ok (List.replicate conv.rowSize none)) with
        | Except.error e => Except.error e
        | Except.ok slots1 =>
          if 0 < conv.valsFromVal then
            (processTuple conv conv.valsFromVal conv.maxValTag slots1
              ves).map Prod.fst
          else Except.ok slots1 := rfl

/-- C5 (confirmed): a non-tuple key, a non-absent non-tuple value, or an
error inside either tuple scan (which is where a failing converter surfaces,
through the converter-error branch of `processTupleLoop`) aborts
`ConvertKVToSqlRow` with that error. The Go code returns a nil row on every
error path; in the model `Except.error` carries no row at all, so no partial
row can accompany an error. -/
theorem c5_errorsAbortWithNoRow (conv : KVToSqlRowConverter)
    (k v : NomsValue) :
    ((∀ es, k ≠ NomsValue.tuple es) →
        convertKVToSqlRow conv k v = Except.error "invalid key is not a tuple")
    ∧ (∀ kes, k = NomsValue.tuple kes → isNull v = false →
        (∀ es, v ≠ NomsValue.tuple es) →
        convertKVToSqlRow conv k v
          = Except.error "invalid value is not a tuple")
    ∧ (∀ kes e, k = NomsValue.tuple kes →
        (isNull v = true ∨ ∃ ves, v = NomsValue.tuple ves) →
        0 < conv.valsFromKey →
        processTuple conv conv.valsFromKey uint64Sentinel
          (List.replicate conv.rowSize none) kes = Except.error e →
        convertKVToSqlRow conv k v = Except.error e)
    ∧ (∀ kes ves slots1 e, k = NomsValue.tuple kes → v = NomsValue.tuple ves →
        (if 0 < conv.valsFromKey then
           (processTuple conv conv.valsFromKey uint64Sentinel
             (List.replicate conv.rowSize none) kes).map Prod.fst
         else Except.ok (List.replicate conv.rowSize none))
          = Except.ok slots1 →
        0 < conv.valsFromVal →
        processTuple conv conv.valsFromVal conv.maxValTag slots1 ves
          = Except.error e →
        convertKVToSqlRow conv k v = Except.error e) := by
  refine ⟨?_, ?_, ?_, ?_⟩
  · intro hk
    cases k with
    | tuple es => exact absurd rfl (hk es)
    | null => rfl
    | scalar w => rfl
  · intro kes hk hnull hv
    subst hk
    cases v with
    | tuple es => exact absurd rfl (hv es)
    | null => simp [isNull] at hnull
    | scalar w => rfl
  · intro kes e hk hv hreq herr
    subst hk
    have hres : ∀ ves2,
        (match (if 0 < conv.valsFromKey then
                  (processTuple conv conv.valsFromKey uint64Sentinel
                    (List.replicate conv.rowSize none) kes).map Prod.fst
                else Except.ok (List.replicate conv.rowSize none)) with
         | Except.error e2 => Except.error e2
         | Except.ok slots1 =>
           if 0 < conv.valsFromVal then
             (processTuple conv conv.valsFromVal conv.maxValTag slots1
               ves2).map Prod.fst
           else Except.ok slots1) = Except.error e := by
      intro ves2
      rw [if_pos hreq, herr]
      rfl
    rcases hv with hnull | ⟨ves, hves⟩
    · cases v with
      | null => rw [convertKVToSqlRow_nullValue]; exact hres []
      | tuple es => simp [isNull] at hnull
      | scalar w => simp [isNull] at hnull
    · subst hves
      rw [convertKVToSqlRow_tupleValue]
      exact hres ves
  · intro kes ves slots1 e hk hvv hkey hval herr
    subst hk; subst hvv
    rw [convertKVToSqlRow_tupleValue, hkey]
    dsimp only
    rw [if_pos hval, herr]
    rfl

/-- Witness for C5: a concrete converter exercising all three error paths
(non-tuple key, non-tuple value, failing per-column converter). -/
theorem c5_errorsAbortWithNoRow_witness :
    convertKVToSqlRow c5conv NomsValue.null NomsValue.null
      = Except.error "invalid key is not a tuple"
    ∧ convertKVToSqlRow c5conv (NomsValue.tuple [])
        (NomsValue.scalar (NomsVal.uint 3))
      = Except.error "invalid value is not a tuple"
    ∧ convertKVToSqlRow c5conv
        (NomsValue.tuple (flatPairs [(0, NomsVal.str "a")])) NomsValue.null
      = Except.error "conversion failed" := by
  refine ⟨?_, ?_, ?_⟩
  · exact (c5_errorsAbortWithNoRow c5conv NomsValue.null NomsValue.null).1
      (fun es h => by cases h)
  · exact (c5_errorsAbortWithNoRow c5conv (NomsValue.tuple [])
      (NomsValue.scalar (NomsVal.uint 3))).2.1 [] rfl rfl
      (fun es h => by cases h)
  · exact (c5_errorsAbortWithNoRow c5conv
      (NomsValue.tuple (flatPairs [(0, NomsVal.str "a")]))
      NomsValue.null).2.2.1 (flatPairs [(0, NomsVal.str "a")])
      "conversion failed" rfl (Or.inl rfl) (by decide) rfl

/-- Helper: a tuple scan never writes a row slot that no tag of the scanned
tuple maps to — slots stay exactly as they were. -/
theorem processTupleLoop_untouched (conv : KVToSqlRowConverter)
    (vtf mt : Nat) :
    ∀ (ps : List (Nat × NomsVal)) (slots : List (Option SqlValue))
      (filled tag64 v0 : Nat) (slots2 : List (Option SqlValue)) (n : Nat)
      (idx : Nat),
      processTupleLoop conv vtf mt slots filled tag64 (flatPairs ps) v0
        = Except.ok (slots2, n) →
      (∀ p ∈ ps, conv.tagToSqlColIdx p.1 ≠ some idx) →
      slots2[idx]? = slots[idx]? := by
  intro ps
  induction ps with
  | nil =>
    intro slots filled tag64 v0 slots2 n idx h hmap
    have h3 : processTupleLoop conv vtf mt slots filled tag64 (flatPairs []) v0
        = if filled < vtf ∧ tag64 < mt then Except.ok (slots, v0)
          else Except.ok (slots, v0) := rfl
    rw [h3] at h
    split at h <;>
      (simp only [Except.ok.injEq, Prod.mk.injEq] at h; rw [h.1])
  | cons p rest ih =>
    obtain ⟨t, v⟩ := p
    intro slots filled tag64 v0 slots2 n idx h hmap
    rw [show flatPairs ((t, v) :: rest)
          = NomsVal.uint t :: v :: flatPairs rest from rfl] at h
    unfold processTupleLoop at h
    split at h
    · dsimp only at h
      by_cases hmt : mt < t
      · rw [if_pos hmt] at h
        simp only [Except.ok.injEq, Prod.mk.injEq] at h
        rw [h.1]
      · rw [if_neg hmt] at h
        have hne : conv.tagToSqlColIdx t ≠ some idx :=
          hmap (t, v) (List.mem_cons_self _ _)
        rcases hm : conv.tagToSqlColIdx t with _ | j
        · rw [hm] at h
          dsimp only at h
          exact ih _ _ _ _ _ _ _ h
            (fun p hp => hmap p (List.mem_cons_of_mem _ hp))
        · rw [hm] at h
          dsimp only at h
          rcases hcol : conv.cols.get? j with _ | col
          · rw [hcol] at h; cases h
          · rw [hcol] at h
            dsimp only at h
            rcases hcv : col.convert v with e | sv
            · rw [hcv] at h; cases h
            · rw [hcv] at h
              dsimp only at h
              split at h
              · have hj : j ≠ idx := fun hEq => hne (hEq ▸ hm ▸ rfl)
                have hrec := ih _ _ _ _ _ _ _ h
                  (fun p hp => hmap p (List.mem_cons_of_mem _ hp))
                rw [hrec, List.getElem?_set_ne hj]
              · cases h
    · simp only [Except.ok.injEq, Prod.mk.injEq] at h
      rw [h.1]

/-- C6 (confirmed): with a tuple key and the absent/null value sentinel, the
conversion succeeds with exactly the key scan's result — even when value
columns are requested, the absent value contributes no value-column fills —
and every row slot that no key-tuple tag maps to (in particular every
requested value-column slot, under the well-formedness that key tuples hold
only key tags) is left null. -/
theorem c6_absentValueContributesNothing (conv : KVToSqlRowConverter)
    (kps : List (Nat × NomsVal)) (v : NomsValue)
    (slots1 : List (Option SqlValue))
    (hv : isNull v = true)
    (hkey : (if 0 < conv.valsFromKey then
               (processTuple conv conv.valsFromKey uint64Sentinel
                 (List.replicate conv.rowSize none) (flatPairs kps)).map
                 Prod.fst
             else Except.ok (List.replicate conv.rowSize none))
        = Except.ok slots1) :
    convertKVToSqlRow conv (NomsValue.tuple (flatPairs kps)) v
      = Except.ok slots1
    ∧ ∀ idx, idx < conv.rowSize →
        (∀ p ∈ kps, conv.tagToSqlColIdx p.1 ≠ some idx) →
        slots1[idx]? = some none := by
  have hvnull : v = NomsValue.null := by
    cases v with
    | null => rfl
    | tuple es => simp [isNull] at hv
    | scalar w => simp [isNull] at hv
  subst hvnull
  constructor
  · rw [convertKVToSqlRow_nullValue, hkey]
    dsimp only
    by_cases hvv : 0 < conv.valsFromVal
    · rw [if_pos hvv]
      by_cases hmx : 0 < conv.maxValTag
      · have : processTuple conv conv.valsFromVal conv.maxValTag slots1 []
            = Except.ok (slots1, 0) := by
          unfold processTuple processTupleLoop
          rw [if_pos ⟨hvv, hmx⟩]
      
        rw [this]; rfl
      · have : processTuple conv conv.valsFromVal conv.maxValTag slots1 []
            = Except.ok (slots1, 0) := by
          unfold processTuple processTupleLoop
          rw [if_neg (fun hc => hmx hc.2)]
        rw [this]; rfl
    · rw [if_neg hvv]
  · intro idx hlt hunmapped
    have hrepl : (List.replicate conv.rowSize
        (none : Option SqlValue))[idx]? = some none :=
      List.getElem?_replicate_of_lt hlt
    by_cases hk : 0 < conv.valsFromKey
    · rw [if_pos hk] at hkey
      rcases hpt : processTuple conv conv.valsFromKey uint64Sentinel
          (List.replicate conv.rowSize none) (flatPairs kps) with e | pr
      · rw [hpt] at hkey; cases hkey
      · rw [hpt] at hkey
        simp only [exceptMap_ok, Except.ok.injEq] at hkey
        obtain ⟨slots2, n⟩ := pr
        have := processTupleLoop_untouched conv conv.valsFromKey
          uint64Sentinel kps (List.replicate conv.rowSize none) 0 0 0
          slots2 n idx hpt hunmapped
        subst hkey
        dsimp only
        rw [this]
        exact hrepl
    · rw [if_neg hk] at hkey
      simp only [Except.ok.injEq] at hkey
      subst hkey
      exact hrepl

/-- Witness for C6: key tag 0 requested into slot 0, value tag 1 requested
into slot 1; converting key [(0, "k")] against the null value succeeds and
leaves the requested value slot null. -/
theorem c6_absentValueContributesNothing_witness :
    convertKVToSqlRow c6conv
        (NomsValue.tuple (flatPairs [(0, NomsVal.str "k")])) NomsValue.null
      = Except.ok [some (SqlValue.sStr "k"), none]
    ∧ ([some (SqlValue.sStr "k"), (none : Option SqlValue)])[1]?
      = some none := by
  have h := c6_absentValueContributesNothing c6conv [(0, NomsVal.str "k")]
    NomsValue.null [some (SqlValue.sStr "k"), none] rfl rfl
  exact ⟨h.1, h.2 1 (by decide) (by decide)⟩

/-- Helper: under the key scan's sentinel max tag (with all tuple tags below
the `uint64` sentinel, as any real tag is), the scan stops only at the end of
the tuple or at the exact point where the number of filled requested columns
reaches `valsToFill` — there is no tag-order-based early exit. -/
theorem processTupleLoop_keyExit (conv : KVToSqlRowConverter) (vtf : Nat) :
    ∀ (ps : List (Nat × NomsVal)) (slots : List (Option SqlValue))
      (filled tag64 v0 : Nat) (slots2 : List (Option SqlValue)) (n : Nat),
      (∀ p ∈ ps, p.1 < uint64Sentinel) →
      tag64 < uint64Sentinel →
      filled ≤ vtf →
      processTupleLoop conv vtf uint64Sentinel slots filled tag64
        (flatPairs ps) v0 = Except.ok (slots2, n) →
      ∃ m, n = v0 + m ∧ m ≤ ps.length ∧
        (m = ps.length ∨ filled + mappedCount conv (ps.take m) = vtf) := by
  intro ps
  induction ps with
  | nil =>
    intro slots filled tag64 v0 slots2 n htags htag hfl h
    have h3 : processTupleLoop conv vtf uint64Sentinel slots filled tag64
          (flatPairs []) v0
        = if filled < vtf ∧ tag64 < uint64Sentinel then Except.ok (slots, v0)
          else Except.ok (slots, v0) := rfl
    rw [h3] at h
    refine ⟨0, ?_, by simp, Or.inl rfl⟩
    split at h <;>
      (simp only [Except.ok.injEq, Prod.mk.injEq] at h; omega)
  | cons p rest ih =>
    obtain ⟨t, v⟩ := p
    intro slots filled tag64 v0 slots2 n htags htag hfl h
    rw [show flatPairs ((t, v) :: rest)
          = NomsVal.uint t :: v :: flatPairs rest from rfl] at h
    unfold processTupleLoop at h
    split at h
    · dsimp only at h
      have ht : t < uint64Sentinel := htags (t, v) (List.mem_cons_self _ _)
      rw [if_neg (by omega : ¬ uint64Sentinel < t)] at h
      rcases hm : conv.tagToSqlColIdx t with _ | j
      · rw [hm] at h
        dsimp only at h
        obtain ⟨m, hm1, hm2, hm3⟩ := ih _ _ _ _ _ _
          (fun p hp => htags p (List.mem_cons_of_mem _ hp)) ht hfl h
        refine ⟨m + 1, by omega, by simpa using hm2, ?_⟩
        rcases hm3 with he | hc
        · exact Or.inl (by simp [he])
        · refine Or.inr ?_
          rw [show ((t, v) :: rest).take (m + 1) = (t, v) :: rest.take m
                from rfl]
          rw [show mappedCount conv ((t, v) :: rest.take m)
                = (if mappedP conv (t, v) then 1 else 0)
                  + mappedCount conv (rest.take m) from by
            simp [mappedCount, List.countP_cons]; omega]
          have hmf : mappedP conv (t, v) = false := by
            simp [mappedP, hm]
          rw [hmf]
          simpa using hc
      · rw [hm] at h
        dsimp only at h
        rcases hcol : conv.cols.get? j with _ | col
        · rw [hcol] at h; cases h
        · rw [hcol] at h
          dsimp only at h
          rcases hcv : col.convert v with e | sv
          · rw [hcv] at h; cases h
          · rw [hcv] at h
            dsimp only at h
            split at h
            · rename_i hcond _
              have hfl2 : filled + 1 ≤ vtf := hcond.1
              obtain ⟨m, hm1, hm2, hm3⟩ := ih _ _ _ _ _ _
                (fun p hp => htags p (List.mem_cons_of_mem _ hp)) ht hfl2 h
              refine ⟨m + 1, by omega, by simpa using hm2, ?_⟩
              rcases hm3 with he | hc
              · exact Or.inl (by simp [he])
              · refine Or.inr ?_
                rw [show ((t, v) :: rest).take (m + 1) = (t, v) :: rest.take m
                      from rfl]
                rw [show mappedCount conv ((t, v) :: rest.take m)
                      = (if mappedP conv (t, v) then 1 else 0)
                        + mappedCount conv (rest.take m) from by
                  simp [mappedCount, List.countP_cons]; omega]
                have hmt2 : mappedP conv (t, v) = true := by
                  simp [mappedP, hm]
                rw [hmt2]
                simp
                omega
            · cases h
    · rename_i hcond
      simp only [Except.ok.injEq, Prod.mk.injEq] at h
      refine ⟨0, by omega, by simp, Or.inr ?_⟩
      simp [mappedCount]
      omega

/-- C2 (amended): with at least one key column requested and every key-tuple
tag below the `uint64` sentinel, the key-tuple scan visits entries in order
from the start and stops only at the end of the tuple or at the exact point
where the number of requested key columns filled reaches `valsFromKey`; no
maximum-tag early exit is applied to the key tuple. (The original claim —
that the scan visits every entry even when all requested key tags are
already filled — fails: see the counterexample.) -/
theorem c2_keyScanFillBoundedExit (conv : KVToSqlRowConverter)
    (kps : List (Nat × NomsVal)) (slots slots2 : List (Option SqlValue))
    (n : Nat)
    (_hreq : 0 < conv.valsFromKey)
    (htags : ∀ p ∈ kps, p.1 < uint64Sentinel)
    (hok : processTuple conv conv.valsFromKey uint64Sentinel slots
        (flatPairs kps) = Except.ok (slots2, n)) :
    n ≤ kps.length ∧
      (n = kps.length
        ∨ mappedCount conv (kps.take n) = conv.valsFromKey) := by
  obtain ⟨m, hm1, hm2, hm3⟩ := processTupleLoop_keyExit conv
    conv.valsFromKey kps slots 0 0 0 slots2 n htags
    (by norm_num [uint64Sentinel]) (Nat.zero_le _) hok
  have hmn : m = n := by omega
  subst hmn
  refine ⟨hm2, ?_⟩
  rcases hm3 with he | hc
  · exact Or.inl he
  · exact Or.inr (by simpa using hc)

/-- Witness for C2's amended claim: the requested key tag stored last forces
the scan to the end of the tuple (both entries visited). -/
theorem c2_keyScanFillBoundedExit_witness :
    processTuple c2lastConv c2lastConv.valsFromKey uint64Sentinel
      (List.replicate 1 none)
      (flatPairs [(0, NomsVal.str "a"), (1, NomsVal.str "b")])
      = Except.ok ([some (SqlValue.sStr "b")], 2)
    ∧ ((2 : Nat) ≤ 2 ∧ ((2 : Nat) = 2 ∨ mappedCount c2lastConv
        ([(0, NomsVal.str "a"), (1, NomsVal.str "b")].take 2)
          = c2lastConv.valsFromKey)) :=
  ⟨rfl, c2_keyScanFillBoundedExit c2lastConv
    [(0, NomsVal.str "a"), (1, NomsVal.str "b")] (List.replicate 1 none)
    [some (SqlValue.sStr "b")] 2 (by decide) (by decide) rfl⟩

/-- Helper: counting requested entries across a cons. -/
theorem mappedCount_cons (conv : KVToSqlRowConverter) (p : Nat × NomsVal)
    (rest : List (Nat × NomsVal)) :
    mappedCount conv (p :: rest)
      = mappedCount conv rest + (if mappedP conv p then 1 else 0) := by
  simp [mappedCount, List.countP_cons]

/-- Helper: a full scan over entries none of whose tags are requested leaves
the row unchanged. -/
theorem fullScanSpec_unmapped (conv : KVToSqlRowConverter) :
    ∀ (ps : List (Nat × NomsVal)) (slots : List (Option SqlValue)),
      (∀ p ∈ ps, conv.tagToSqlColIdx p.1 = none) →
      fullScanSpec conv slots (flatPairs ps) = Except.ok slots := by
  intro ps
  induction ps with
  | nil => intro slots _; rfl
  | cons p rest ih =>
    obtain ⟨t, v⟩ := p
    intro slots h
    rw [show flatPairs ((t, v) :: rest)
          = NomsVal.uint t :: v :: flatPairs rest from rfl]
    unfold fullScanSpec
    rw [h (t, v) (List.mem_cons_self _ _)]
    exact ih slots (fun p hp => h p (List.mem_cons_of_mem _ hp))

/-- Helper (main induction): on a strictly ascending tuple whose requested
tags are bounded by `maxTag` and whose requested-entry count fits in
`valsToFill`, the early-exit scan computes exactly what the reference full
scan computes, provided the loop is not disabled outright (`tag64 < maxTag`
initially, or nothing is requested). -/
theorem processTupleLoop_valueEquiv (conv : KVToSqlRowConverter)
    (vtf mt : Nat) :
    ∀ (ps : List (Nat × NomsVal)) (slots : List (Option SqlValue))
      (filled tag64 v0 : Nat),
      List.Pairwise (fun p q : Nat × NomsVal => p.1 < q.1) ps →
      (∀ p ∈ ps, mappedP conv p = true → p.1 ≤ mt) →
      filled + mappedCount conv ps ≤ vtf →
      (tag64 < mt ∨ mappedCount conv ps = 0) →
      (processTupleLoop conv vtf mt slots filled tag64 (flatPairs ps)
        v0).map Prod.fst
        = fullScanSpec conv slots (flatPairs ps) := by
  intro ps
  induction ps with
  | nil =>
    intro slots filled tag64 v0 _ _ _ _
    have h3 : processTupleLoop conv vtf mt slots filled tag64 (flatPairs []) v0
        = if filled < vtf ∧ tag64 < mt then Except.ok (slots, v0)
          else Except.ok (slots, v0) := rfl
    rw [h3]
    split <;> rfl
  | cons p rest ih =>
    obtain ⟨t, v⟩ := p
    intro slots filled tag64 v0 hasc hbnd hcnt hbr
    obtain ⟨hlt, hasc2⟩ := List.pairwise_cons.mp hasc
    by_cases hcond : filled < vtf ∧ tag64 < mt
    · -- the loop actually examines the head entry
      by_cases hmt : mt < t
      · -- head tag exceeds maxTag: the loop breaks; all entries are unmapped
        have hallnone : ∀ p ∈ (t, v) :: rest, conv.tagToSqlColIdx p.1 = none := by
          intro q hq
          rcases List.mem_cons.mp hq with hq1 | hq2
          · subst hq1
            by_contra hne
            have : mappedP conv (t, v) = true := by
              simp [mappedP, Option.isSome_iff_ne_none, hne]
            have := hbnd (t, v) (List.mem_cons_self _ _) this
            omega
          · by_contra hne
            have hmq : mappedP conv q = true := by
              simp [mappedP, Option.isSome_iff_ne_none, hne]
            have h1 := hbnd q (List.mem_cons_of_mem _ hq2) hmq
            have h2 := hlt q hq2
            omega
        rw [fullScanSpec_unmapped conv ((t, v) :: rest) slots hallnone]
        rw [show processTupleLoop conv vtf mt slots filled tag64
              (flatPairs ((t, v) :: rest)) v0 = Except.ok (slots, v0) from by
          rw [show flatPairs ((t, v) :: rest)
                = NomsVal.uint t :: v :: flatPairs rest from rfl]
          unfold processTupleLoop
          rw [if_pos hcond]
          dsimp only
          rw [if_pos hmt]]
        rfl
      · -- head tag within bound: both scans treat the head identically
        rw [show flatPairs ((t, v) :: rest)
              = NomsVal.uint t :: v :: flatPairs rest from rfl]
        unfold processTupleLoop fullScanSpec
        rw [if_pos hcond]
        dsimp only
        rw [if_neg hmt]
        have hbr2 : t < mt ∨ mappedCount conv rest = 0 := by
          by_cases htm : t < mt
          · exact Or.inl htm
          · refine Or.inr (List.countP_eq_zero.mpr ?_)
            intro q hq hmq
            have h1 := hbnd q (List.mem_cons_of_mem _ hq) hmq
            have h2 := hlt q hq
            omega
        rcases hm : conv.tagToSqlColIdx t with _ | j
        · dsimp only
          have hmf : mappedP conv (t, v) = false := by simp [mappedP, hm]
          have hcnt2 : filled + mappedCount conv rest ≤ vtf := by
            rw [mappedCount_cons, hmf] at hcnt
            simpa using hcnt
          exact ih slots filled t (v0 + 1) hasc2
            (fun p hp => hbnd p (List.mem_cons_of_mem _ hp)) hcnt2 hbr2
        · dsimp only
          rcases hcol : conv.cols.get? j with _ | col
          · rfl
          · dsimp only
            rcases hcv : col.convert v with e | sv
            · rfl
            · dsimp only
              by_cases hidx : j < slots.length
              · simp only [if_pos hidx]
                have hmtr : mappedP conv (t, v) = true := by simp [mappedP, hm]
                have hcnt2 : (filled + 1) + mappedCount conv rest ≤ vtf := by
                  rw [mappedCount_cons, hmtr] at hcnt
                  simp at hcnt
                  omega
                exact ih (slots.set j (some sv)) (filled + 1) t (v0 + 1) hasc2
                  (fun p hp => hbnd p (List.mem_cons_of_mem _ hp)) hcnt2 hbr2
              · simp only [if_neg hidx]
                rfl
    · -- the loop exits before examining the head: nothing mapped remains
      have hmc : mappedCount conv ((t, v) :: rest) = 0 := by
        rcases hbr with hb | hb
        · have hge : vtf ≤ filled := by omega
          omega
        · exact hb
      have hallnone : ∀ p ∈ (t, v) :: rest, conv.tagToSqlColIdx p.1 = none := by
        intro q hq
        have := List.countP_eq_zero.mp hmc q hq
        simpa [mappedP, Option.isSome_iff_ne_none] using this
      rw [fullScanSpec_unmapped conv ((t, v) :: rest) slots hallnone]
      rw [show processTupleLoop conv vtf mt slots filled tag64
            (flatPairs ((t, v) :: rest)) v0 = Except.ok (slots, v0) from by
        rw [show flatPairs ((t, v) :: rest)
              = NomsVal.uint t :: v :: flatPairs rest from rfl]
        unfold processTupleLoop
        rw [if_neg hcond]]
      rfl

/-- Helper: whenever the scan succeeds having visited `m` entries, every
visited entry had tag at most `maxTag` and was visited while strictly fewer
than `valsToFill` requested columns were filled — the scan stops as soon as
either exit condition holds and never consumes an entry beyond the max
tag. -/
theorem processTupleLoop_visitBound (conv : KVToSqlRowConverter)
    (vtf mt : Nat) :
    ∀ (ps : List (Nat × NomsVal)) (slots : List (Option SqlValue))
      (filled tag64 v0 : Nat) (slots2 : List (Option SqlValue)) (n : Nat),
      processTupleLoop conv vtf mt slots filled tag64 (flatPairs ps) v0
        = Except.ok (slots2, n) →
      ∃ m, n = v0 + m ∧ m ≤ ps.length ∧
        ∀ i, i < m → ∀ p, ps.get? i = some p →
          p.1 ≤ mt ∧ filled + mappedCount conv (ps.take i) < vtf := by
  intro ps
  induction ps with
  | nil =>
    intro slots filled tag64 v0 slots2 n h
    have h3 : processTupleLoop conv vtf mt slots filled tag64 (flatPairs []) v0
        = if filled < vtf ∧ tag64 < mt then Except.ok (slots, v0)
          else Except.ok (slots, v0) := rfl
    rw [h3] at h
    refine ⟨0, ?_, by simp, by omega⟩
    split at h <;>
      (simp only [Except.ok.injEq, Prod.mk.injEq] at h; omega)
  | cons p rest ih =>
    obtain ⟨t, v⟩ := p
    intro slots filled tag64 v0 slots2 n h
    rw [show flatPairs ((t, v) :: rest)
          = NomsVal.uint t :: v :: flatPairs rest from rfl] at h
    unfold processTupleLoop at h
    split at h
    · rename_i hcond
      dsimp only at h
      by_cases hmt : mt < t
      · rw [if_pos hmt] at h
        simp only [Except.ok.injEq, Prod.mk.injEq] at h
        exact ⟨0, by omega, by simp, by omega⟩
      · rw [if_neg hmt] at h
        rcases hm : conv.tagToSqlColIdx t with _ | j
        · rw [hm] at h
          dsimp only at h
          obtain ⟨m, hm1, hm2, hm3⟩ := ih _ _ _ _ _ _ h
          refine ⟨m + 1, by omega, by simpa using hm2, ?_⟩
          intro i hi q hq
          cases i with
          | zero =>
            simp only [List.get?_cons_zero, Option.some.injEq] at hq
            subst hq
            exact ⟨by omega, by simpa [mappedCount] using hcond.1⟩
          | succ i2 =>
            have hq2 : rest.get? i2 = some q := hq
            have := hm3 i2 (by omega) q hq2
            refine ⟨this.1, ?_⟩
            rw [show ((t, v) :: rest).take (i2 + 1) = (t, v) :: rest.take i2
                  from rfl, mappedCount_cons]
            have hmf : mappedP conv (t, v) = false := by simp [mappedP, hm]
            rw [hmf]
            simp
            omega
        · rw [hm] at h
          dsimp only at h
          rcases hcol : conv.cols.get? j with _ | col
          · rw [hcol] at h; cases h
          · rw [hcol] at h
            dsimp only at h
            rcases hcv : col.convert v with e | sv
            · rw [hcv] at h; cases h
            · rw [hcv] at h
              dsimp only at h
              split at h
              · obtain ⟨m, hm1, hm2, hm3⟩ := ih _ _ _ _ _ _ h
                refine ⟨m + 1, by omega, by simpa using hm2, ?_⟩
                intro i hi q hq
                cases i with
                | zero =>
                  simp only [List.get?_cons_zero, Option.some.injEq] at hq
                  subst hq
                  exact ⟨by omega, by simpa [mappedCount] using hcond.1⟩
                | succ i2 =>
                  have hq2 : rest.get? i2 = some q := hq
                  have := hm3 i2 (by omega) q hq2
                  refine ⟨this.1, ?_⟩
                  rw [show ((t, v) :: rest).take (i2 + 1)
                        = (t, v) :: rest.take i2 from rfl, mappedCount_cons]
                  have hmtr : mappedP conv (t, v) = true := by
                    simp [mappedP, hm]
                  rw [hmtr]
                  simp
                  omega
              · cases h
    · simp only [Except.ok.injEq, Prod.mk.injEq] at h
      exact ⟨0, by omega, by simp, by omega⟩

/-- C3 (amended): for a well-formed, strictly ascending value tuple whose
requested tags are bounded by the precomputed maximum requested value tag and
whose requested-entry count is at most the number of requested value columns,
and provided that maximum tag is nonzero, the value scan (a) produces exactly
the row a full scan produces, (b) visits at most the tuple's entries, and
(c) visits an entry only while its tag is at most the maximum and strictly
fewer than all requested value columns are filled — i.e. it stops as soon as
either exit condition holds and never consumes an entry whose tag exceeds the
maximum. (The original claim fails when the maximum requested value tag is 0:
see the counterexample, where the scan exits immediately and differs from the
full scan.) -/
theorem c3_valueScanEarlyExitEquiv (conv : KVToSqlRowConverter)
    (ps : List (Nat × NomsVal)) (slots : List (Option SqlValue))
    (hasc : List.Chain' (fun p q : Nat × NomsVal => p.1 < q.1) ps)
    (hbnd : ∀ p ∈ ps, mappedP conv p = true → p.1 ≤ conv.maxValTag)
    (hcnt : mappedCount conv ps ≤ conv.valsFromVal)
    (hpos : 0 < conv.maxValTag) :
    (processTuple conv conv.valsFromVal conv.maxValTag slots
        (flatPairs ps)).map Prod.fst
      = fullScanSpec conv slots (flatPairs ps)
    ∧ ∀ slots2 n, processTuple conv conv.valsFromVal conv.maxValTag slots
          (flatPairs ps) = Except.ok (slots2, n) →
        n ≤ ps.length
        ∧ ∀ i, i < n → ∀ p, ps.get? i = some p →
            p.1 ≤ conv.maxValTag
            ∧ mappedCount conv (ps.take i) < conv.valsFromVal := by
  haveI : IsTrans (Nat × NomsVal) (fun p q : Nat × NomsVal => p.1 < q.1) :=
    ⟨fun a b c h1 h2 => Nat.lt_trans h1 h2⟩
  have hpw := List.chain'_iff_pairwise.mp hasc
  constructor
  · exact processTupleLoop_valueEquiv conv conv.valsFromVal conv.maxValTag ps
      slots 0 0 0 hpw hbnd (by simpa using hcnt) (Or.inl hpos)
  · intro slots2 n hok
    obtain ⟨m, hm1, hm2, hm3⟩ := processTupleLoop_visitBound conv
      conv.valsFromVal conv.maxValTag ps slots 0 0 0 slots2 n hok
    have hmn : m = n := by omega
    subst hmn
    refine ⟨hm2, fun i hi p hp => ?_⟩
    have hres := hm3 i hi p hp
    exact ⟨hres.1, by simpa using hres.2⟩

/-- Witness for C3's amended claim: the spec's own example — tags [1,3,5,9]
with {1,3} requested — where the optimized scan stops after two entries and
agrees with the full scan. -/
theorem c3_valueScanEarlyExitEquiv_witness :
    processTuple c3exConv c3exConv.valsFromVal c3exConv.maxValTag
      (List.replicate 2 none)
      (flatPairs [(1, NomsVal.str "a"), (3, NomsVal.str "b"),
                  (5, NomsVal.str "c"), (9, NomsVal.str "d")])
      = Except.ok ([some (SqlValue.sStr "a"), some (SqlValue.sStr "b")], 2)
    ∧ (processTuple c3exConv c3exConv.valsFromVal c3exConv.maxValTag
        (List.replicate 2 none)
        (flatPairs [(1, NomsVal.str "a"), (3, NomsVal.str "b"),
                    (5, NomsVal.str "c"), (9, NomsVal.str "d")])).map Prod.fst
      = fullScanSpec c3exConv (List.replicate 2 none)
        (flatPairs [(1, NomsVal.str "a"), (3, NomsVal.str "b"),
                    (5, NomsVal.str "c"), (9, NomsVal.str "d")]) :=
  ⟨rfl,
   (c3_valueScanEarlyExitEquiv c3exConv
     [(1, NomsVal.str "a"), (3, NomsVal.str "b"),
      (5, NomsVal.str "c"), (9, NomsVal.str "d")]
     (List.replicate 2 none) (by simp [List.chain'_cons]) (by decide)
     (by decide) (by decide)).1⟩

/-- Helper: the Go update `if w > cur { cur = w }` computes a maximum. -/
theorem goMaxIf (a w : Nat) : (if w > a then w else a) = max a w := by
  split <;> omega

/-- Helper: on a row with no non-string non-null values, the width-learning
pass succeeds and updates each tag's entries to the fold of the observed
widths (resp. rune counts) over the previous values. -/
theorem sampleRow_char (env : FwtEnv) :
    ∀ (row : List (Nat × FwtVal)) (pw mr : Nat → Nat),
      (∀ p ∈ row, p.2 ≠ FwtVal.nonString) →
      ∃ pw2 mr2, sampleRow env pw mr row = some (pw2, mr2)
        ∧ (∀ t, pw2 t = (pairWidthObs env t row).foldl max (pw t))
        ∧ (∀ t, mr2 t = (pairRuneObs env t row).foldl max (mr t)) := by
  intro row
  induction row with
  | nil =>
    intro pw mr _
    exact ⟨pw, mr, rfl, fun t => rfl, fun t => rfl⟩
  | cons p rest ih =>
    obtain ⟨tag, v⟩ := p
    intro pw mr h
    cases v with
    | null =>
      obtain ⟨pw2, mr2, h1, h2, h3⟩ := ih pw mr
        (fun q hq => h q (List.mem_cons_of_mem _ hq))
      refine ⟨pw2, mr2, by simpa [sampleRow] using h1, fun t => ?_,
        fun t => ?_⟩
      · rw [h2 t]
        congr 1
        simp [pairWidthObs]
      · rw [h3 t]
        congr 1
        simp [pairRuneObs]
    | str s =>
      obtain ⟨pw2, mr2, h1, h2, h3⟩ := ih
        (fun t => if t = tag then
           (if env.stringWidth s > pw tag then env.stringWidth s else pw tag)
         else pw t)
        (fun t => if t = tag then
           (if env.runeCount s > mr tag then env.runeCount s else mr tag)
         else mr t)
        (fun q hq => h q (List.mem_cons_of_mem _ hq))
      refine ⟨pw2, mr2, by simpa [sampleRow] using h1, fun t => ?_,
        fun t => ?_⟩
      · rw [h2 t]
        by_cases htag : t = tag
        · subst htag
          rw [show pairWidthObs env t ((t, FwtVal.str s) :: rest)
                = env.stringWidth s :: pairWidthObs env t rest from by
            simp [pairWidthObs]]
          rw [List.foldl_cons]
          congr 1
          simp [goMaxIf]
        · rw [show pairWidthObs env t ((tag, FwtVal.str s) :: rest)
                = pairWidthObs env t rest from by
            simp [pairWidthObs, Ne.symm htag]]
          congr 1
          simp [htag]
      · rw [h3 t]
        by_cases htag : t = tag
        · subst htag
          rw [show pairRuneObs env t ((t, FwtVal.str s) :: rest)
                = env.runeCount s :: pairRuneObs env t rest from by
            simp [pairRuneObs]]
          rw [List.foldl_cons]
          congr 1
          simp [goMaxIf]
        · rw [show pairRuneObs env t ((tag, FwtVal.str s) :: rest)
                = pairRuneObs env t rest from by
            simp [pairRuneObs, Ne.symm htag]]
          congr 1
          simp [htag]
    | nonString =>
      exact absurd rfl (h (tag, FwtVal.nonString) (List.mem_cons_self _ _))

/-- Helper: on an exhausted input queue with no cancellation, the stage runs
its final flush. -/
theorem transformToFWT_nil_none (env : FwtEnv)
    (st : AutoSizingFWTTransformer) (idx : Nat) :
    transformToFWT env st [] idx none
      = some (flush env st (fun _ => false)) := rfl

/-- Helper: one step of the uncancelled stage loop. -/
theorem transformToFWT_cons_none (env : FwtEnv)
    (st : AutoSizingFWTTransformer) (r : RowWithProps)
    (rest : List RowWithProps) (idx : Nat) :
    transformToFWT env st (r :: rest) idx none
      = match handleRow env st r (fun _ => false) with
        | none => none
        | some h =>
          match transformToFWT env h.1 rest (idx + 1) none with
          | none => none
          | some t => some (t.1, h.2.1 ++ t.2.1, h.2.2 ++ t.2.2.1, t.2.2.2)
      := rfl

/-- Helper: with the stop signal never raised, the replay loop processes
every buffered row in order, concatenating per-row queue items. -/
theorem flushLoop_noStop (fmt : Formatter) :
    ∀ (rows : List RowWithProps) (i : Nat),
      flushLoop fmt rows i (fun _ => false)
        = ((rows.map fun r => (processRow fmt r).1).flatten,
           (rows.map fun r => (processRow fmt r).2).flatten,
           rows.length, false) := by
  intro rows
  induction rows with
  | nil => intro i; rfl
  | cons r rest ih =>
    intro i
    unfold flushLoop
    rw [if_neg (by simp)]
    rw [ih (i + 1)]
    simp

/-- Helper: while the sample threshold is never reached, the stage stays in
Sampling across all inputs: it buffers every row in order, learns widths as
the fold of observations, emits nothing, and ends ready to flush. -/
theorem transformToFWT_sampling (env : FwtEnv) :
    ∀ (inputs : List RowWithProps) (st : AutoSizingFWTTransformer)
      (buf : List RowWithProps) (idx : Nat),
      st.rowBuffer = some buf →
      (st.numSamples ≤ 0
        ∨ ((buf.length : Int) + inputs.length ≤ st.numSamples)) →
      (∀ r ∈ inputs, ∀ p ∈ r.row, p.2 ≠ FwtVal.nonString) →
      ∃ pwF mrF,
        transformToFWT env st inputs idx none
          = transformToFWT env
              { st with printWidths := pwF, maxRunes := mrF,
                        rowBuffer := some (buf ++ inputs) }
              [] (idx + inputs.length) none
        ∧ (∀ t, pwF t
            = (observedWidths env t inputs).foldl max (st.printWidths t))
        ∧ (∀ t, mrF t
            = (observedRunes env t inputs).foldl max (st.maxRunes t)) := by
  intro inputs
  induction inputs with
  | nil =>
    intro st buf idx hbuf _ _
    refine ⟨st.printWidths, st.maxRunes, ?_, fun t => rfl, fun t => rfl⟩
    obtain ⟨ns, pw0, mr0, rb, ft⟩ := st
    simp only at hbuf
    subst hbuf
    simp
  | cons r rest ih =>
    intro st buf idx hbuf hsz hstr
    have hcond2 : st.numSamples ≤ 0 ∨ (buf.length : Int) < st.numSamples := by
      rcases hsz with h1 | h1
      · exact Or.inl h1
      · refine Or.inr ?_
        have : ((r :: rest).length : Int) = rest.length + 1 := by
          simp
        omega
    obtain ⟨pw2, mr2, hsr, hpw2, hmr2⟩ := sampleRow_char env r.row
      st.printWidths st.maxRunes
      (fun p hp => hstr r (List.mem_cons_self _ _) p hp)
    have hhr : handleRow env st r (fun _ => false)
        = some ({ st with
                    printWidths := pw2
                    maxRunes := mr2
                    rowBuffer := some (buf ++ [r]) }, [], []) := by
      unfold handleRow
      rw [hbuf]
      dsimp only
      rw [if_pos hcond2, hsr]
    obtain ⟨pwF, mrF, heq, hw, hr2⟩ := ih
      { st with
          printWidths := pw2
          maxRunes := mr2
          rowBuffer := some (buf ++ [r]) }
      (buf ++ [r]) (idx + 1) rfl
      (by
        rcases hsz with h1 | h1
        · exact Or.inl h1
        · refine Or.inr ?_
          dsimp only
          have h2 : ((buf ++ [r]).length : Int) = buf.length + 1 := by simp
          have h3 : ((r :: rest).length : Int) = rest.length + 1 := by simp
          omega)
      (fun q hq => hstr q (List.mem_cons_of_mem _ hq))
    refine ⟨pwF, mrF, ?_, fun t => ?_, fun t => ?_⟩
    · rw [transformToFWT_cons_none, hhr]
      dsimp only
      rw [heq, transformToFWT_nil_none]
      dsimp only
      rw [transformToFWT_nil_none]
      have happ : (buf ++ [r]) ++ rest = buf ++ r :: rest := by simp
      rw [happ]
      simp
    · rw [show observedWidths env t (r :: rest)
            = pairWidthObs env t r.row ++ observedWidths env t rest from by
        simp [observedWidths, rowWidthObs]]
      rw [List.foldl_append, ← hpw2 t]
      simpa using hw t
    · rw [show observedRunes env t (r :: rest)
            = pairRuneObs env t r.row ++ observedRunes env t rest from by
        simp [observedRunes, rowRuneObs]]
      rw [List.foldl_append, ← hmr2 t]
      simpa using hr2 t

/-- C7 (confirmed): if the input is exhausted without cancellation while the
stage is still Sampling (fewer inputs than a positive sample size, or a
non-positive sample size sampling unboundedly), every buffered row — i.e.
every input row — is flushed in buffer order through a formatter built from
exactly the learned statistics, where the learned print width of each tag is
the maximum display width observed over that tag's non-null values across the
buffered rows (an empty observation list yields the Go map's zero default;
zero rows give empty width maps). -/
theorem c7_endOfInputFlushesLearnedWidths (env : FwtEnv) (N : Int)
    (inputs : List RowWithProps)
    (hsz : N ≤ 0 ∨ (inputs.length : Int) ≤ N)
    (hstr : ∀ r ∈ inputs, ∀ p ∈ r.row, p.2 ≠ FwtVal.nonString) :
    transformToFWT env (newAutoSizingFWTTransformer N) inputs 0 none
      = some ({ numSamples := N
                printWidths := learnedPrintWidths env inputs
                maxRunes := learnedMaxRunes env inputs
                rowBuffer := none
                fwtTr := some (autoSizedFormatter env inputs) },
              (inputs.map fun r =>
                (processRow (autoSizedFormatter env inputs) r).1).flatten,
              (inputs.map fun r =>
                (processRow (autoSizedFormatter env inputs) r).2).flatten,
              false) := by
  obtain ⟨pwF, mrF, heq, hw, hr⟩ := transformToFWT_sampling env inputs
    (newAutoSizingFWTTransformer N) [] 0 rfl
    (by
      rcases hsz with h1 | h1
      · exact Or.inl h1
      · exact Or.inr (by simpa [newAutoSizingFWTTransformer] using h1))
    hstr
  have hpw : pwF = learnedPrintWidths env inputs := by
    funext t
    rw [hw t]
    rfl
  have hmr : mrF = learnedMaxRunes env inputs := by
    funext t
    rw [hr t]
    rfl
  subst hpw
  subst hmr
  rw [heq, transformToFWT_nil_none]
  unfold flush
  dsimp only [newAutoSizingFWTTransformer]
  rw [flushLoop_noStop]
  simp [autoSizedFormatter]


/-- Helper: if the stop signal is observed by every checkpoint from row
index `r` on, the replay loop processes at most `r + 100` rows before
returning: cancellation is caught at the first `i % 100 == 0` checkpoint at
or after `r`. -/
theorem flushLoop_stopCount (fmt : Formatter) (r : Nat) :
    ∀ (rows : List RowWithProps) (i : Nat),
      i ≤ 100 * ((r + 99) / 100) →
      i + (flushLoop fmt rows i (fun j => decide (r ≤ j))).2.2.1
        ≤ 100 * ((r + 99) / 100) + 1 := by
  have hC0 : r ≤ 100 * ((r + 99) / 100) := by
    have h1 := Nat.div_add_mod (r + 99) 100
    have h2 : (r + 99) % 100 < 100 := Nat.mod_lt _ (by omega)
    omega
  have hCmod : (100 * ((r + 99) / 100)) % 100 = 0 := Nat.mul_mod_right _ _
  intro rows
  induction rows with
  | nil =>
    intro i hi
    simp only [flushLoop]
    omega
  | cons row rest ih =>
    intro i hi
    unfold flushLoop
    dsimp only
    split
    · dsimp only
      omega
    · rename_i hstop
      have hlt : i < 100 * ((r + 99) / 100) := by
        rcases Nat.lt_or_ge i (100 * ((r + 99) / 100)) with h | h
        · exact h
        · exfalso
          have hieq : i = 100 * ((r + 99) / 100) := by omega
          exact hstop (by subst hieq; simp [hCmod, hC0])
      have := ih (i + 1) (by omega)
      dsimp only
      omega

/-- Helper: one-step unfolding of the stage loop. -/
theorem transformToFWT_eq (env : FwtEnv) (st : AutoSizingFWTTransformer)
    (inputs : List RowWithProps) (idx : Nat) (stopAt : Option Nat) :
    transformToFWT env st inputs idx stopAt
      = if (match stopAt with
            | some n => decide (n ≤ idx)
            | none => false) then
          some (st, [], [], true)
        else
          match inputs with
          | [] => some (flush env st (fun _ => false))
          | r :: rest =>
            match handleRow env st r (fun _ => false) with
            | none => none
            | some h =>
              match transformToFWT env h.1 rest (idx + 1) stopAt with
              | none => none
              | some t =>
                some (t.1, h.2.1 ++ t.2.1, h.2.2 ++ t.2.2.1, t.2.2.2) := by
  cases inputs <;> rfl

/-- Helper: a cancellation signal raised at input boundary `k` makes the
stage return right there: it emits exactly what handling the first `k` items
emitted, does not drain the remaining input, performs no final flush, and
adds nothing to the error queue on the way out. -/
theorem transformToFWT_cancel (env : FwtEnv) :
    ∀ (k : Nat) (inputs : List RowWithProps)
      (st : AutoSizingFWTTransformer) (idx : Nat),
      k ≤ inputs.length →
      transformToFWT env st inputs idx (some (idx + k))
        = (runItems env st (inputs.take k)).map
            (fun y => (y.1, y.2.1, y.2.2, true)) := by
  intro k
  induction k with
  | zero =>
    intro inputs st idx _
    have h1 : transformToFWT env st inputs idx (some (idx + 0))
        = some (st, [], [], true) := by
      unfold transformToFWT
      rw [if_pos (by simp)]
    rw [h1]
    rfl
  | succ k2 ih =>
    intro inputs st idx hk
    cases inputs with
    | nil => simp at hk
    | cons r rest =>
      have hk2 : k2 ≤ rest.length := by simpa using hk
      rw [transformToFWT_eq, if_neg (by simp)]
      dsimp only
      rw [show (r :: rest).take (k2 + 1) = r :: rest.take k2 from rfl]
      rw [show runItems env st (r :: rest.take k2)
            = (match handleRow env st r (fun _ => false) with
               | none => none
               | some h =>
                 match runItems env h.1 (rest.take k2) with
                 | none => none
                 | some t => some (t.1, h.2.1 ++ t.2.1, h.2.2 ++ t.2.2))
          from rfl]
      cases hhr : handleRow env st r (fun _ => false) with
      | none => rfl
      | some h =>
        dsimp only
        have hidx : idx + (k2 + 1) = (idx + 1) + k2 := by omega
        rw [hidx, ih rest h.1 (idx + 1) hk2]
        cases hri : runItems env h.1 (rest.take k2) with
        | none => rfl
        | some t => rfl

/-- C8 (confirmed): once cancellation is raised, the stage does a bounded
amount of further work. (a) During a buffered replay with the signal visible
from row index `r` on, at most `r + 100` rows are processed in total — i.e.
at most 100 rows at or beyond the signal — because the signal is only polled
at every-100-rows checkpoints. (b) Raised at an input boundary, the stage
returns with exactly the output of the already-handled prefix: remaining
input is not drained, and the error queue receives nothing from the
cancellation itself (the stopped flag, not a TransformFailure, reports
it). -/
theorem c8_cancellationBounded (fmtr : Formatter) (buf : List RowWithProps)
    (r : Nat) (env : FwtEnv) (st : AutoSizingFWTTransformer)
    (inputs : List RowWithProps) (n : Nat)
    (hn : n ≤ inputs.length) :
    (flushLoop fmtr buf 0 (fun j => decide (r ≤ j))).2.2.1 ≤ r + 100
    ∧ transformToFWT env st inputs 0 (some n)
        = (runItems env st (inputs.take n)).map
            (fun y => (y.1, y.2.1, y.2.2, true)) := by
  constructor
  · have hC := flushLoop_stopCount fmtr r buf 0 (Nat.zero_le _)
    have hC2 : 100 * ((r + 99) / 100) ≤ r + 99 := by
      have := Nat.div_mul_le_self (r + 99) 100
      omega
    omega
  · have := transformToFWT_cancel env n inputs st 0 hn
    simpa using this

/-- Witness for C8 at concrete inputs: signal visible from the start of a
3-row replay, and a run of 3 inputs cancelled at boundary 1. -/
theorem c8_cancellationBounded_witness :
    (flushLoop (fwtEchoEnv.mkFmt (fun _ => 0) (fun _ => 0))
        [fwtRowA, fwtRowB, fwtRowC] 0 (fun j => decide (0 ≤ j))).2.2.1
      ≤ 0 + 100
    ∧ transformToFWT fwtEchoEnv (newAutoSizingFWTTransformer 0)
        [fwtRowA, fwtRowB, fwtRowC] 0 (some 1)
        = (runItems fwtEchoEnv (newAutoSizingFWTTransformer 0)
            ([fwtRowA, fwtRowB, fwtRowC].take 1)).map
            (fun y => (y.1, y.2.1, y.2.2, true)) :=
  c8_cancellationBounded (fwtEchoEnv.mkFmt (fun _ => 0) (fun _ => 0))
    [fwtRowA, fwtRowB, fwtRowC] 0 fwtEchoEnv
    (newAutoSizingFWTTransformer 0) [fwtRowA, fwtRowB, fwtRowC] 1
    (by decide)

/-- Witness for C7: two rows sampled under sample size 5; the learned width
for tag 1 is 4 (the wider of "aa" and "bbbb"). -/
theorem c7_endOfInputFlushesLearnedWidths_witness :
    transformToFWT fwtEchoEnv (newAutoSizingFWTTransformer 5)
        [fwtRowA, fwtRowB] 0 none
      = some ({ numSamples := 5
                printWidths := learnedPrintWidths fwtEchoEnv [fwtRowA, fwtRowB]
                maxRunes := learnedMaxRunes fwtEchoEnv [fwtRowA, fwtRowB]
                rowBuffer := none
                fwtTr := some (autoSizedFormatter fwtEchoEnv
                  [fwtRowA, fwtRowB]) },
              ([fwtRowA, fwtRowB].map fun r =>
                (processRow (autoSizedFormatter fwtEchoEnv [fwtRowA, fwtRowB])
                  r).1).flatten,
              ([fwtRowA, fwtRowB].map fun r =>
                (processRow (autoSizedFormatter fwtEchoEnv [fwtRowA, fwtRowB])
                  r).2).flatten,
              false)
    ∧ learnedPrintWidths fwtEchoEnv [fwtRowA, fwtRowB] 1 = 4 :=
  ⟨c7_endOfInputFlushesLearnedWidths fwtEchoEnv 5 [fwtRowA, fwtRowB]
      (by decide) (by decide), rfl⟩
